import Mathlib

/-!
Verification of the sliding-window anti-replay mechanism (`slidingwindow.go`).

The Go source works on `uint64` machine words.  We embed it shallowly:
machine integers become `Nat` together with explicit `% 2^64` reductions
exactly where the Go arithmetic can wrap, and the two pointer-receiver
methods become state-passing functions that return the updated window
alongside the `(Reason, bool)` result.
-/

/-- Go `uint64` addition: `(x + y) mod 2^64`. -/
def uadd (x y : Nat) : Nat := (x + y) % 2^64

/-- Go `uint64` subtraction: `(x - y) mod 2^64` (two's-complement wraparound),
valid for operands below `2^64`. -/
def usub (x y : Nat) : Nat := (x + 2^64 - y) % 2^64

/-- `Int256` is a simple 256-bit integer type: four 64-bit words, word 0 most
significant (Go: `type Int256 [4]uint64`). -/
structure Int256 where
  w0 : Nat
  w1 : Nat
  w2 : Nat
  w3 : Nat
deriving DecidableEq, Repr

/-- Well-formedness: each word fits in 64 bits (automatic for Go's `uint64`). -/
def Int256.Wf (i : Int256) : Prop :=
  i.w0 < 2^64 ∧ i.w1 < 2^64 ∧ i.w2 < 2^64 ∧ i.w3 < 2^64

instance (i : Int256) : Decidable i.Wf := by
  unfold Int256.Wf; infer_instance

/-- The 256-bit value denoted by an `Int256` (word 0 most significant). -/
def Int256.toNat (i : Int256) : Nat :=
  ((i.w0 * 2^64 + i.w1) * 2^64 + i.w2) * 2^64 + i.w3

/-- The whole-word part of `shiftLeft`: Go's `switch a / 64` block. -/
def shiftWords (i : Int256) (q : Nat) : Int256 :=
  if q = 0 then i
  else if q = 1 then ⟨i.w1, i.w2, i.w3, 0⟩
  else if q = 2 then ⟨i.w2, i.w3, 0, 0⟩
  else if q = 3 then ⟨i.w3, 0, 0, 0⟩
  else ⟨0, 0, 0, 0⟩

/-- The sub-word part of `shiftLeft`: Go's
`i[k] = (i[k] << b) | (i[k+1] >> (64 - b))` lines.  In Go a `uint64`
shifted right by 64 yields 0, which `Nat.shiftRight` reproduces for
words below `2^64`; the left shift wraps modulo `2^64`. -/
def shiftBits (i : Int256) (b : Nat) : Int256 :=
  ⟨(i.w0 <<< b) % 2^64 ||| i.w1 >>> (64 - b),
   (i.w1 <<< b) % 2^64 ||| i.w2 >>> (64 - b),
   (i.w2 <<< b) % 2^64 ||| i.w3 >>> (64 - b),
   (i.w3 <<< b) % 2^64⟩

/-- `shiftLeft` bit-shifts `i` by `a` bits to the left (Go `shiftLeft`). -/
def shiftLeft (i : Int256) (a : Nat) : Int256 :=
  shiftBits (shiftWords i (a / 64)) (a % 64)

/-- `setBit` sets bit number `a` in `i`; count starts at 0 at the most
significant bit (Go: `i[a/64] |= 1 << (63 - a%64)`). -/
def setBit (i : Int256) (a : Nat) : Int256 :=
  if a / 64 = 0 then ⟨i.w0 ||| 1 <<< (63 - a % 64), i.w1, i.w2, i.w3⟩
  else if a / 64 = 1 then ⟨i.w0, i.w1 ||| 1 <<< (63 - a % 64), i.w2, i.w3⟩
  else if a / 64 = 2 then ⟨i.w0, i.w1, i.w2 ||| 1 <<< (63 - a % 64), i.w3⟩
  else ⟨i.w0, i.w1, i.w2, i.w3 ||| 1 <<< (63 - a % 64)⟩

/-- `isBitSet` returns true if bit number `a` is set in `i`
(Go: `i[a/64] & (1 << (63 - a%64)) != 0`). -/
def isBitSet (i : Int256) (a : Nat) : Bool :=
  if a / 64 = 0 then (i.w0 &&& 1 <<< (63 - a % 64)) != 0
  else if a / 64 = 1 then (i.w1 &&& 1 <<< (63 - a % 64)) != 0
  else if a / 64 = 2 then (i.w2 &&& 1 <<< (63 - a % 64)) != 0
  else (i.w3 &&& 1 <<< (63 - a % 64)) != 0

/-- `Reason` explains why the sliding window has made a decision. -/
inductive Reason where
  | First
  | Reuse
  | Shift
  | OutOfWindow
deriving DecidableEq, Repr

/-- `SlidingWindow` implements a sliding window algorithm: a base `offset`
(`uint64`) and a 256-bit `bitmap`. -/
structure SlidingWindow where
  offset : Nat
  bitmap : Int256
deriving DecidableEq, Repr

/-- A window is well formed when its offset fits in 64 bits and its bitmap
words fit in 64 bits. -/
def SlidingWindow.Wf (w : SlidingWindow) : Prop :=
  w.offset < 2^64 ∧ w.bitmap.Wf

instance (w : SlidingWindow) : Decidable w.Wf := by
  unfold SlidingWindow.Wf; infer_instance

/-- The fresh window produced by Go's `new(SlidingWindow)`: offset 0,
all bits 0. -/
def freshWindow : SlidingWindow := ⟨0, ⟨0, 0, 0, 0⟩⟩

/-- `CheckAndSetNonce` returns true if the nonce is valid, false otherwise,
and updates the window (Go method, embedded state-passing; all `uint64`
arithmetic wraps modulo `2^64`, and Go's `uint8(x)` conversion is `% 256`). -/
def SlidingWindow.CheckAndSetNonce (window : SlidingWindow) (nonce : Nat) :
    Reason × Bool × SlidingWindow :=
  if nonce < window.offset then
    (Reason.OutOfWindow, false, window)
  else if uadd window.offset 256 ≤ nonce then
    let newOffset := uadd (usub nonce 256) 1
    let shift := usub newOffset window.offset
    let bitmap1 := shiftLeft window.bitmap shift
    let bitmap2 := setBit bitmap1 (usub nonce newOffset % 256)
    (Reason.Shift, true, ⟨newOffset, bitmap2⟩)
  else
    let bitPos := usub nonce window.offset % 256
    if isBitSet window.bitmap bitPos then
      (Reason.Reuse, false, window)
    else
      (Reason.First, true, ⟨window.offset, setBit window.bitmap bitPos⟩)

/-- `CheckNonce` returns true if the nonce is valid; it does not change the
state (Go method; every branch returns the window untouched). -/
def SlidingWindow.CheckNonce (window : SlidingWindow) (nonce : Nat) :
    Reason × Bool × SlidingWindow :=
  if nonce < window.offset then
    (Reason.OutOfWindow, false, window)
  else if uadd window.offset 256 ≤ nonce then
    (Reason.Shift, true, window)
  else
    let bitPos := usub nonce window.offset % 256
    if isBitSet window.bitmap bitPos then
      (Reason.Reuse, false, window)
    else
      (Reason.First, true, window)

/-- Iterate `CheckAndSetNonce` over a list of nonces (the CLI's main loop). -/
def runWindow (w : SlidingWindow) (ns : List Nat) : SlidingWindow :=
  ns.foldl (fun w n => (w.CheckAndSetNonce n).2.2) w

/-- Iterate `CheckNonce` over a list of nonces, keeping the returned state. -/
def runCheckNonce (w : SlidingWindow) (ns : List Nat) : SlidingWindow :=
  ns.foldl (fun w n => (w.CheckNonce n).2.2) w

/-! ### Arithmetic helpers for the `uint64` embedding -/

lemma uadd_eq {x y : Nat} (h : x + y < 2^64) : uadd x y = x + y :=
  Nat.mod_eq_of_lt h

lemma usub_eq {x y : Nat} (h1 : y ≤ x) (h2 : x < 2^64) : usub x y = x - y := by
  unfold usub
  have hx : x + 2^64 - y = (x - y) + 2^64 := by omega
  rw [hx, Nat.add_mod_right, Nat.mod_eq_of_lt (by omega)]

lemma step_lt {a b m : Nat} (ha : a < m) (hb : b < 2^64) :
    a * 2^64 + b < m * 2^64 := by
  calc a * 2^64 + b < a * 2^64 + 2^64 := by omega
    _ = (a + 1) * 2^64 := by ring
    _ ≤ m * 2^64 := Nat.mul_le_mul_right _ (by omega)

lemma Int256.toNat_lt {i : Int256} (h : i.Wf) : i.toNat < 2^256 := by
  obtain ⟨h0, h1, h2, h3⟩ := h
  have a1 : i.w0 * 2^64 + i.w1 < 2^64 * 2^64 := step_lt h0 h1
  have a2 : (i.w0 * 2^64 + i.w1) * 2^64 + i.w2 < 2^64 * 2^64 * 2^64 :=
    step_lt a1 h2
  have a3 := step_lt a2 h3
  calc i.toNat < 2^64 * 2^64 * 2^64 * 2^64 := a3
    _ = 2^256 := by norm_num

/-! ### Wellformedness preservation -/

lemma shiftWords_wf {i : Int256} (h : i.Wf) (q : Nat) : (shiftWords i q).Wf := by
  obtain ⟨h0, h1, h2, h3⟩ := h
  unfold shiftWords
  split_ifs <;> exact ⟨by simp_all, by simp_all, by simp_all, by simp_all⟩

lemma shiftBits_wf {i : Int256} (h : i.Wf) (b : Nat) : (shiftBits i b).Wf := by
  obtain ⟨h0, h1, h2, h3⟩ := h
  have m0 : (i.w0 <<< b) % 2^64 < 2^64 := Nat.mod_lt _ (by norm_num)
  have m1 : (i.w1 <<< b) % 2^64 < 2^64 := Nat.mod_lt _ (by norm_num)
  have m2 : (i.w2 <<< b) % 2^64 < 2^64 := Nat.mod_lt _ (by norm_num)
  have m3 : (i.w3 <<< b) % 2^64 < 2^64 := Nat.mod_lt _ (by norm_num)
  have r1 : i.w1 >>> (64 - b) < 2^64 := by
    rw [Nat.shiftRight_eq_div_pow]; exact Nat.lt_of_le_of_lt (Nat.div_le_self _ _) h1
  have r2 : i.w2 >>> (64 - b) < 2^64 := by
    rw [Nat.shiftRight_eq_div_pow]; exact Nat.lt_of_le_of_lt (Nat.div_le_self _ _) h2
  have r3 : i.w3 >>> (64 - b) < 2^64 := by
    rw [Nat.shiftRight_eq_div_pow]; exact Nat.lt_of_le_of_lt (Nat.div_le_self _ _) h3
  exact ⟨Nat.or_lt_two_pow m0 r1, Nat.or_lt_two_pow m1 r2, Nat.or_lt_two_pow m2 r3, m3⟩

lemma shiftLeft_wf {i : Int256} (h : i.Wf) (a : Nat) : (shiftLeft i a).Wf :=
  shiftBits_wf (shiftWords_wf h _) _

lemma setBit_wf {i : Int256} (h : i.Wf) (a : Nat) : (setBit i a).Wf := by
  obtain ⟨h0, h1, h2, h3⟩ := h
  have hm : 1 <<< (63 - a % 64) < 2^64 := by
    rw [Nat.one_shiftLeft]
    exact Nat.pow_lt_pow_right (by omega) (by omega)
  unfold setBit
  split_ifs <;>
    exact ⟨by first | exact Nat.or_lt_two_pow h0 hm | exact h0,
           by first | exact Nat.or_lt_two_pow h1 hm | exact h1,
           by first | exact Nat.or_lt_two_pow h2 hm | exact h2,
           by first | exact Nat.or_lt_two_pow h3 hm | exact h3⟩

/-! ### Bit-level characterisations -/

lemma and_mask_ne (w t : Nat) : ((w &&& 1 <<< t) != 0) = w.testBit t := by
  rw [Nat.one_shiftLeft, Nat.and_two_pow]
  cases h : w.testBit t <;> simp [(Nat.two_pow_pos t).ne']

lemma tb_word {c : Nat} (A : Nat) (hc : c < 2^64) (j : Nat) :
    (2^64 * A + c).testBit j = if j < 64 then c.testBit j else A.testBit (j - 64) :=
  Nat.testBit_mul_pow_two_add A hc j

lemma Int256.toNat_testBit {i : Int256} (h : i.Wf) (j : Nat) :
    i.toNat.testBit j =
      if j < 64 then i.w3.testBit j
      else if j < 128 then i.w2.testBit (j - 64)
      else if j < 192 then i.w1.testBit (j - 128)
      else i.w0.testBit (j - 192) := by
  obtain ⟨h0, h1, h2, h3⟩ := h
  have e : i.toNat = 2^64 * (2^64 * (2^64 * i.w0 + i.w1) + i.w2) + i.w3 := by
    unfold Int256.toNat; ring
  rw [e, tb_word _ h3 j]
  by_cases j1 : j < 64
  · simp [j1]
  · rw [if_neg j1, tb_word _ h2 (j - 64)]
    by_cases j2 : j < 128
    · simp [j1, j2, show j - 64 < 64 by omega]
    · rw [if_neg (show ¬(j - 64 < 64) by omega), tb_word _ h1 (j - 64 - 64)]
      by_cases j3 : j < 192
      · rw [if_pos (show j - 64 - 64 < 64 by omega),
          show j - 64 - 64 = j - 128 from by omega, if_neg j1, if_neg j2, if_pos j3]
      · rw [if_neg (show ¬(j - 64 - 64 < 64) by omega),
          show j - 64 - 64 - 64 = j - 192 from by omega,
          if_neg j1, if_neg j2, if_neg j3]

lemma isBitSet_eq_testBit {i : Int256} (h : i.Wf) {k : Nat} (hk : k < 256) :
    isBitSet i k = i.toNat.testBit (255 - k) := by
  rw [Int256.toNat_testBit h]
  unfold isBitSet
  by_cases k1 : k < 64
  · rw [if_pos (show k / 64 = 0 by omega), and_mask_ne,
      if_neg (show ¬(255 - k < 64) by omega), if_neg (show ¬(255 - k < 128) by omega),
      if_neg (show ¬(255 - k < 192) by omega),
      show (63 - k % 64 : Nat) = 255 - k - 192 from by omega]
  · by_cases k2 : k < 128
    · rw [if_neg (show ¬(k / 64 = 0) by omega), if_pos (show k / 64 = 1 by omega),
        and_mask_ne, if_neg (show ¬(255 - k < 64) by omega),
        if_neg (show ¬(255 - k < 128) by omega), if_pos (show 255 - k < 192 by omega),
        show (63 - k % 64 : Nat) = 255 - k - 128 from by omega]
    · by_cases k3 : k < 192
      · rw [if_neg (show ¬(k / 64 = 0) by omega), if_neg (show ¬(k / 64 = 1) by omega),
          if_pos (show k / 64 = 2 by omega), and_mask_ne,
          if_neg (show ¬(255 - k < 64) by omega), if_pos (show 255 - k < 128 by omega),
          show (63 - k % 64 : Nat) = 255 - k - 64 from by omega]
      · rw [if_neg (show ¬(k / 64 = 0) by omega), if_neg (show ¬(k / 64 = 1) by omega),
          if_neg (show ¬(k / 64 = 2) by omega), and_mask_ne,
          if_pos (show 255 - k < 64 by omega),
          show (63 - k % 64 : Nat) = 255 - k from by omega]

lemma or_mask_testBit (w tp tq : Nat) :
    (((w ||| 1 <<< tp) &&& 1 <<< tq) != 0) = (decide (tp = tq) || ((w &&& 1 <<< tq) != 0)) := by
  rw [and_mask_ne, and_mask_ne, Nat.testBit_or, Nat.one_shiftLeft, Nat.testBit_two_pow]
  exact Bool.or_comm _ _

lemma isBitSet_setBit (i : Int256) {p q : Nat} (hp : p < 256) (hq : q < 256) :
    isBitSet (setBit i p) q = (decide (q = p) || isBitSet i q) := by
  have hp4 : p / 64 = 0 ∨ p / 64 = 1 ∨ p / 64 = 2 ∨ p / 64 = 3 := by omega
  have hq4 : q / 64 = 0 ∨ q / 64 = 1 ∨ q / 64 = 2 ∨ q / 64 = 3 := by omega
  unfold setBit isBitSet
  rcases hp4 with hp' | hp' | hp' | hp' <;> rcases hq4 with hq' | hq' | hq' | hq' <;>
    simp only [hp', hq'] <;> norm_num <;>
    first
      | (rw [or_mask_testBit]
         congr 1
         exact decide_eq_decide.mpr (by omega))
      | simp [show ¬(q = p) from by omega]

/-! ### `shiftLeft` computes multiplication by a power of two modulo `2^256` -/

lemma carry_div_lt {v b : Nat} (hb : b < 64) (hv : v < 2^64) :
    v / 2^(64 - b) < 2^b := by
  rw [Nat.div_lt_iff_lt_mul (Nat.two_pow_pos _), ← pow_add]
  exact lt_of_lt_of_le hv (Nat.pow_le_pow_right (by omega) (by omega))

lemma carry_or_eq_add {u v b : Nat} (hb : b < 64) (hv : v < 2^64) :
    (u <<< b) % 2^64 ||| v >>> (64 - b) = (u * 2^b) % 2^64 + v / 2^(64 - b) := by
  rw [Nat.shiftLeft_eq, Nat.shiftRight_eq_div_pow]
  obtain ⟨a, ha⟩ : (2^b : Nat) ∣ (u * 2^b) % 2^64 :=
    (Nat.dvd_mod_iff (pow_dvd_pow 2 (le_of_lt hb))).2 (Dvd.intro_left u rfl)
  rw [ha, ← Nat.mul_add_lt_is_or (carry_div_lt hb hv) a]

lemma carry_sum_lt {u v b : Nat} (hb : b < 64) (hv : v < 2^64) :
    (u * 2^b) % 2^64 + v / 2^(64 - b) < 2^64 := by
  obtain ⟨a, ha⟩ : (2^b : Nat) ∣ (u * 2^b) % 2^64 :=
    (Nat.dvd_mod_iff (pow_dvd_pow 2 (le_of_lt hb))).2 (Dvd.intro_left u rfl)
  have hm : (u * 2^b) % 2^64 < 2^64 := Nat.mod_lt _ (by norm_num)
  have hc := carry_div_lt hb hv
  have hae : a < 2^(64 - b) := by
    by_contra hcon
    push_neg at hcon
    have : (2:Nat)^b * 2^(64-b) ≤ 2^b * a := Nat.mul_le_mul_left _ hcon
    rw [← pow_add, show b + (64 - b) = 64 by omega] at this
    omega
  calc (u * 2^b) % 2^64 + v / 2^(64 - b) < 2^b * a + 2^b := by omega
    _ = 2^b * (a + 1) := by ring
    _ ≤ 2^b * 2^(64-b) := Nat.mul_le_mul_left _ (by omega)
    _ = 2^64 := by rw [← pow_add]; congr 1; omega

lemma shiftWords_toNat {i : Int256} (h : i.Wf) (q : Nat) :
    (shiftWords i q).toNat = i.toNat * 2^(64 * q) % 2^256 := by
  obtain ⟨h0, h1, h2, h3⟩ := h
  have l2 : i.w2 * 2^64 + i.w3 < 2^128 := by
    have := step_lt h2 h3; calc i.w2 * 2^64 + i.w3 < 2^64 * 2^64 := this
      _ = 2^128 := by norm_num
  have l1 : (i.w1 * 2^64 + i.w2) * 2^64 + i.w3 < 2^192 := by
    have s1 : i.w1 * 2^64 + i.w2 < 2^64 * 2^64 := step_lt h1 h2
    have := step_lt (show i.w1 * 2^64 + i.w2 < 2^128 by
      calc i.w1 * 2^64 + i.w2 < 2^64 * 2^64 := s1
        _ = 2^128 := by norm_num) h3
    calc (i.w1 * 2^64 + i.w2) * 2^64 + i.w3 < 2^128 * 2^64 := this
      _ = 2^192 := by norm_num
  unfold shiftWords
  split_ifs with e0 e1 e2 e3
  · subst e0
    norm_num
    exact (Nat.mod_eq_of_lt (Int256.toNat_lt ⟨h0, h1, h2, h3⟩)).symm
  · subst e1
    have key : i.toNat * 2^(64*1) =
        (((i.w1 * 2^64 + i.w2) * 2^64 + i.w3) * 2^64 + 0) + i.w0 * 2^256 := by
      unfold Int256.toNat; ring
    have hb : ((i.w1 * 2^64 + i.w2) * 2^64 + i.w3) * 2^64 + 0 < 2^256 := by
      rw [Nat.add_zero]
      calc ((i.w1 * 2^64 + i.w2) * 2^64 + i.w3) * 2^64 < 2^192 * 2^64 :=
            mul_lt_mul_of_pos_right l1 (by norm_num)
        _ = 2^256 := by norm_num
    show ((i.w1 * 2^64 + i.w2) * 2^64 + i.w3) * 2^64 + 0 = i.toNat * 2^(64*1) % 2^256
    rw [key, Nat.add_mul_mod_self_right, Nat.mod_eq_of_lt hb]
  · subst e2
    have key : i.toNat * 2^(64*2) =
        (((i.w2 * 2^64 + i.w3) * 2^64 + 0) * 2^64 + 0) + (i.w0 * 2^64 + i.w1) * 2^256 := by
      unfold Int256.toNat; ring
    have hb : ((i.w2 * 2^64 + i.w3) * 2^64 + 0) * 2^64 + 0 < 2^256 := by
      rw [Nat.add_zero, Nat.add_zero, mul_assoc]
      calc (i.w2 * 2^64 + i.w3) * (2^64 * 2^64) < 2^128 * (2^64 * 2^64) :=
            mul_lt_mul_of_pos_right l2 (by norm_num)
        _ = 2^256 := by norm_num
    show ((i.w2 * 2^64 + i.w3) * 2^64 + 0) * 2^64 + 0 = i.toNat * 2^(64*2) % 2^256
    rw [key, Nat.add_mul_mod_self_right, Nat.mod_eq_of_lt hb]
  · subst e3
    have key : i.toNat * 2^(64*3) =
        (((i.w3 * 2^64 + 0) * 2^64 + 0) * 2^64 + 0) + ((i.w0 * 2^64 + i.w1) * 2^64 + i.w2) * 2^256 := by
      unfold Int256.toNat; ring
    have hb : ((i.w3 * 2^64 + 0) * 2^64 + 0) * 2^64 + 0 < 2^256 := by
      rw [Nat.add_zero, Nat.add_zero, Nat.add_zero, mul_assoc, mul_assoc]
      calc i.w3 * (2^64 * (2^64 * 2^64)) < 2^64 * (2^64 * (2^64 * 2^64)) :=
            mul_lt_mul_of_pos_right h3 (by norm_num)
        _ = 2^256 := by norm_num
    show ((i.w3 * 2^64 + 0) * 2^64 + 0) * 2^64 + 0 = i.toNat * 2^(64*3) % 2^256
    rw [key, Nat.add_mul_mod_self_right, Nat.mod_eq_of_lt hb]
  · have hq : 256 ≤ 64 * q := by omega
    have hdvd : (2:Nat)^256 ∣ i.toNat * 2^(64*q) :=
      ((pow_dvd_pow 2 hq).mul_left i.toNat)
    rw [Nat.mod_eq_zero_of_dvd hdvd]
    rfl

lemma word_split (w b : Nat) (hb : b < 64) :
    w * 2^b = 2^64 * (w / 2^(64-b)) + (w * 2^b) % 2^64 := by
  have he : (2:Nat)^64 = 2^(64-b) * 2^b := by rw [← pow_add]; congr 1; omega
  have hd : w * 2^b / 2^64 = w / 2^(64-b) := by
    rw [he, Nat.mul_div_mul_right _ _ (Nat.two_pow_pos b)]
  conv_lhs => rw [← Nat.div_add_mod (w * 2^b) (2^64)]
  rw [hd]

lemma shiftBits_toNat {i : Int256} (h : i.Wf) {b : Nat} (hb : b < 64) :
    (shiftBits i b).toNat = i.toNat * 2^b % 2^256 := by
  obtain ⟨h0, h1, h2, h3⟩ := h
  have c1 := carry_or_eq_add (u := i.w0) hb h1
  have c2 := carry_or_eq_add (u := i.w1) hb h2
  have c3 := carry_or_eq_add (u := i.w2) hb h3
  have lhs_eq : (shiftBits i b).toNat =
      ((((i.w0 * 2^b) % 2^64 + i.w1 / 2^(64-b)) * 2^64
        + ((i.w1 * 2^b) % 2^64 + i.w2 / 2^(64-b))) * 2^64
        + ((i.w2 * 2^b) % 2^64 + i.w3 / 2^(64-b))) * 2^64
        + (i.w3 * 2^b) % 2^64 := by
    simp only [shiftBits, Int256.toNat]
    rw [c1, c2, c3, Nat.shiftLeft_eq]
  have key : i.toNat * 2^b =
      (((((i.w0 * 2^b) % 2^64 + i.w1 / 2^(64-b)) * 2^64
        + ((i.w1 * 2^b) % 2^64 + i.w2 / 2^(64-b))) * 2^64
        + ((i.w2 * 2^b) % 2^64 + i.w3 / 2^(64-b))) * 2^64
        + (i.w3 * 2^b) % 2^64) + (i.w0 / 2^(64-b)) * 2^256 := by
    have d0 := word_split i.w0 b hb
    have d1 := word_split i.w1 b hb
    have d2 := word_split i.w2 b hb
    have d3 := word_split i.w3 b hb
    calc i.toNat * 2^b
        = (i.w0 * 2^b) * 2^192 + (i.w1 * 2^b) * 2^128
          + (i.w2 * 2^b) * 2^64 + (i.w3 * 2^b) := by
          unfold Int256.toNat; ring
      _ = (2^64 * (i.w0 / 2^(64-b)) + (i.w0 * 2^b) % 2^64) * 2^192
          + (2^64 * (i.w1 / 2^(64-b)) + (i.w1 * 2^b) % 2^64) * 2^128
          + (2^64 * (i.w2 / 2^(64-b)) + (i.w2 * 2^b) % 2^64) * 2^64
          + (2^64 * (i.w3 / 2^(64-b)) + (i.w3 * 2^b) % 2^64) := by
          rw [← d0, ← d1, ← d2, ← d3]
      _ = (((((i.w0 * 2^b) % 2^64 + i.w1 / 2^(64-b)) * 2^64
          + ((i.w1 * 2^b) % 2^64 + i.w2 / 2^(64-b))) * 2^64
          + ((i.w2 * 2^b) % 2^64 + i.w3 / 2^(64-b))) * 2^64
          + (i.w3 * 2^b) % 2^64) + (i.w0 / 2^(64-b)) * 2^256 := by ring
  have hlt : ((((i.w0 * 2^b) % 2^64 + i.w1 / 2^(64-b)) * 2^64
        + ((i.w1 * 2^b) % 2^64 + i.w2 / 2^(64-b))) * 2^64
        + ((i.w2 * 2^b) % 2^64 + i.w3 / 2^(64-b))) * 2^64
        + (i.w3 * 2^b) % 2^64 < 2^256 := by
    rw [← lhs_eq]
    exact Int256.toNat_lt (shiftBits_wf ⟨h0, h1, h2, h3⟩ b)
  rw [lhs_eq, key, Nat.add_mul_mod_self_right, Nat.mod_eq_of_lt hlt]

lemma shiftLeft_toNat {i : Int256} (h : i.Wf) (a : Nat) :
    (shiftLeft i a).toNat = i.toNat * 2^a % 2^256 := by
  unfold shiftLeft
  rw [shiftBits_toNat (shiftWords_wf h _) (Nat.mod_lt _ (by norm_num)),
    shiftWords_toNat h, Nat.mod_mul_mod, mul_assoc, ← pow_add, Nat.div_add_mod]

lemma shiftLeft_zero_of_ge {i : Int256} (a : Nat) (ha : 256 ≤ a) :
    shiftLeft i a = ⟨0, 0, 0, 0⟩ := by
  unfold shiftLeft
  have hw : shiftWords i (a / 64) = ⟨0, 0, 0, 0⟩ := by
    unfold shiftWords
    rw [if_neg (by omega), if_neg (by omega), if_neg (by omega), if_neg (by omega)]
  rw [hw]
  unfold shiftBits
  simp

lemma isBitSet_shiftLeft {x : Int256} (hx : x.Wf) {s k : Nat} (hk : k < 256)
    (hks : k + s < 256) : isBitSet (shiftLeft x s) k = isBitSet x (k + s) := by
  rw [isBitSet_eq_testBit (shiftLeft_wf hx s) hk, isBitSet_eq_testBit hx (by omega),
    shiftLeft_toNat hx, Nat.testBit_mod_two_pow]
  rw [show x.toNat * 2^s = 2^s * x.toNat from mul_comm _ _, Nat.testBit_mul_pow_two]
  have e1 : 255 - k < 256 := by omega
  have e2 : s ≤ 255 - k := by omega
  have e3 : 255 - k - s = 255 - (k + s) := by omega
  simp [e1, e2, e3]

/-! ### A wraparound-free description of `CheckAndSetNonce`

As long as `offset + 256` does not overflow a `uint64` and the nonce is a
`uint64` value, each branch of `CheckAndSetNonce` computes ordinary natural
arithmetic. -/

lemma checkAndSet_spec (w : SlidingWindow) (n : Nat) (hw : w.offset + 256 < 2^64)
    (hn : n < 2^64) :
    w.CheckAndSetNonce n =
      if n < w.offset then (Reason.OutOfWindow, false, w)
      else if w.offset + 256 ≤ n then
        (Reason.Shift, true,
          ⟨n - 255, setBit (shiftLeft w.bitmap (n - 255 - w.offset)) 255⟩)
      else if isBitSet w.bitmap (n - w.offset) then (Reason.Reuse, false, w)
      else (Reason.First, true, ⟨w.offset, setBit w.bitmap (n - w.offset)⟩) := by
  simp only [SlidingWindow.CheckAndSetNonce]
  rw [uadd_eq hw]
  by_cases h1 : n < w.offset
  · rw [if_pos h1, if_pos h1]
  · rw [if_neg h1, if_neg h1]
    by_cases h2 : w.offset + 256 ≤ n
    · rw [if_pos h2, if_pos h2]
      have e1 : usub n 256 = n - 256 := usub_eq (by omega) hn
      have e2 : uadd (n - 256) 1 = n - 255 := by
        unfold uadd; rw [Nat.mod_eq_of_lt (by omega)]; omega
      have e3 : usub (n - 255) w.offset = n - 255 - w.offset :=
        usub_eq (by omega) (by omega)
      have e4 : usub n (n - 255) = 255 := by
        rw [usub_eq (by omega) hn]; omega
      rw [e1, e2, e3, e4, show (255 : Nat) % 256 = 255 from rfl]
    · rw [if_neg h2, if_neg h2]
      have e5 : usub n w.offset = n - w.offset := usub_eq (by omega) hn
      have e6 : (n - w.offset) % 256 = n - w.offset := Nat.mod_eq_of_lt (by omega)
      rw [e5, e6]

/-- States whose offset keeps `offset + 256` below `2^64`, with a well-formed
bitmap: the region in which the window behaves like ideal integer arithmetic. -/
def GoodState (w : SlidingWindow) : Prop := w.offset + 256 < 2^64 ∧ w.bitmap.Wf

lemma inv_fresh : GoodState freshWindow := by
  constructor
  · norm_num [freshWindow]
  · exact ⟨by norm_num [freshWindow], by norm_num [freshWindow],
      by norm_num [freshWindow], by norm_num [freshWindow]⟩

lemma step_offset_mono {w : SlidingWindow} {n : Nat} (hw : GoodState w) (hn : n < 2^64) :
    w.offset ≤ (w.CheckAndSetNonce n).2.2.offset := by
  rw [checkAndSet_spec w n hw.1 hn]
  split_ifs <;> simp <;> omega

lemma step_inv {w : SlidingWindow} {n : Nat} (hw : GoodState w) (hn : n ≤ 2^64 - 2) :
    GoodState (w.CheckAndSetNonce n).2.2 := by
  have hn' : n < 2^64 := by omega
  rw [checkAndSet_spec w n hw.1 hn']
  split_ifs with g1 g2 g3
  · exact hw
  · exact ⟨by simp; omega, by simp; exact setBit_wf (shiftLeft_wf hw.2 _) _⟩
  · exact hw
  · exact ⟨hw.1, setBit_wf hw.2 _⟩

lemma runWindow_nil (w : SlidingWindow) : runWindow w [] = w := rfl

lemma runWindow_cons (w : SlidingWindow) (n : Nat) (ns : List Nat) :
    runWindow w (n :: ns) = runWindow (w.CheckAndSetNonce n).2.2 ns := rfl

lemma runWindow_inv {w : SlidingWindow} {ns : List Nat} (hw : GoodState w)
    (h : ∀ m ∈ ns, m ≤ 2^64 - 2) : GoodState (runWindow w ns) := by
  induction ns generalizing w with
  | nil => exact hw
  | cons m ms ih =>
    rw [runWindow_cons]
    exact ih (step_inv hw (h m (by simp))) (fun x hx => h x (by simp [hx]))

lemma runWindow_offset_mono {w : SlidingWindow} {ns : List Nat} (hw : GoodState w)
    (h : ∀ m ∈ ns, m ≤ 2^64 - 2) : w.offset ≤ (runWindow w ns).offset := by
  induction ns generalizing w with
  | nil => exact le_refl _
  | cons m ms ih =>
    rw [runWindow_cons]
    exact le_trans (step_offset_mono hw (by have := h m (by simp); omega))
      (ih (step_inv hw (h m (by simp))) (fun x hx => h x (by simp [hx])))

/-- The window remembers nonce `n`: either the window has slid past `n`, or
`n` lies in the window and its bit is set. -/
def Seen (w : SlidingWindow) (n : Nat) : Prop :=
  n < w.offset ∨ (n < w.offset + 256 ∧ isBitSet w.bitmap (n - w.offset) = true)

lemma seen_low {w : SlidingWindow} {n : Nat} (h : n < w.offset) : Seen w n :=
  Or.inl h

lemma seen_bit {w : SlidingWindow} {n : Nat} (h1 : n < w.offset + 256)
    (h2 : isBitSet w.bitmap (n - w.offset) = true) : Seen w n :=
  Or.inr ⟨h1, h2⟩

lemma step_accept_seen {w : SlidingWindow} {n : Nat} (hw : GoodState w) (hn : n < 2^64)
    (ha : (w.CheckAndSetNonce n).2.1 = true) : Seen (w.CheckAndSetNonce n).2.2 n := by
  rw [checkAndSet_spec w n hw.1 hn] at ha ⊢
  split_ifs at ha with g1 g2 g3
  · rw [if_neg g1, if_pos g2]
    apply seen_bit
    · show n < (n - 255) + 256
      omega
    · show isBitSet (setBit (shiftLeft w.bitmap (n - 255 - w.offset)) 255)
        (n - (n - 255)) = true
      rw [show n - (n - 255) = 255 from by omega,
        isBitSet_setBit _ (by omega) (by omega)]
      simp
  · rw [if_neg g1, if_neg g2, if_neg g3]
    apply seen_bit
    · show n < w.offset + 256
      omega
    · show isBitSet (setBit w.bitmap (n - w.offset)) (n - w.offset) = true
      rw [isBitSet_setBit _ (by omega) (by omega)]
      simp

set_option maxRecDepth 4096 in
lemma step_seen_preserved {w : SlidingWindow} {n m : Nat} (hw : GoodState w)
    (hm : m < 2^64) (hs : Seen w n) : Seen (w.CheckAndSetNonce m).2.2 n := by
  rw [checkAndSet_spec w m hw.1 hm]
  split_ifs with g1 g2 g3
  · exact hs
  · rcases hs with hlt | ⟨hin, hbit⟩
    · apply seen_low
      show n < m - 255
      omega
    · by_cases hlt2 : n < m - 255
      · exact seen_low hlt2
      · apply seen_bit
        · show n < (m - 255) + 256
          omega
        · show isBitSet (setBit (shiftLeft w.bitmap (m - 255 - w.offset)) 255)
            (n - (m - 255)) = true
          rw [isBitSet_setBit _ (by omega) (by omega)]
          by_cases heq : n - (m - 255) = 255
          · simp [heq]
          · rw [decide_eq_false heq, Bool.false_or,
              isBitSet_shiftLeft hw.2 (by omega) (by omega),
              show n - (m - 255) + (m - 255 - w.offset) = n - w.offset from by omega]
            exact hbit
  · exact hs
  · rcases hs with hlt | ⟨hin, hbit⟩
    · exact seen_low hlt
    · apply seen_bit
      · exact hin
      · show isBitSet (setBit w.bitmap (m - w.offset)) (n - w.offset) = true
        rw [isBitSet_setBit _ (by omega) (by omega)]
        simp [hbit]

lemma seen_reject {w : SlidingWindow} {n : Nat} (hw : GoodState w) (hn : n < 2^64)
    (hs : Seen w n) : (w.CheckAndSetNonce n).2.1 = false := by
  rw [checkAndSet_spec w n hw.1 hn]
  rcases hs with hlt | ⟨hin, hbit⟩
  · rw [if_pos hlt]
  · by_cases h1 : n < w.offset
    · rw [if_pos h1]
    · rw [if_neg h1, if_neg (show ¬(w.offset + 256 ≤ n) from by omega), if_pos hbit]

lemma runWindow_seen {w : SlidingWindow} {ns : List Nat} {n : Nat} (hw : GoodState w)
    (h : ∀ m ∈ ns, m ≤ 2^64 - 2) (hs : Seen w n) : Seen (runWindow w ns) n := by
  induction ns generalizing w with
  | nil => exact hs
  | cons m ms ih =>
    rw [runWindow_cons]
    exact ih (step_inv hw (h m (by simp)))
      (fun x hx => h x (by simp [hx]))
      (step_seen_preserved hw (by have := h m (by simp); omega) hs)

lemma below_reject {w : SlidingWindow} {n : Nat} (h : n < w.offset) :
    w.CheckAndSetNonce n = (Reason.OutOfWindow, false, w) := by
  unfold SlidingWindow.CheckAndSetNonce
  rw [if_pos h]

/-! ### Claim theorems -/

lemma checkNonce_state (w : SlidingWindow) (m : Nat) : (w.CheckNonce m).2.2 = w := by
  simp only [SlidingWindow.CheckNonce]
  split_ifs <;> rfl

lemma runCheckNonce_id (w : SlidingWindow) (ms : List Nat) : runCheckNonce w ms = w := by
  induction ms generalizing w with
  | nil => rfl
  | cons m ms ih =>
    show runCheckNonce (w.CheckNonce m).2.2 ms = w
    rw [checkNonce_state, ih]

/-- Claim C5: `CheckNonce` never mutates the window: the state after a
`CheckNonce` call (indeed, after any sequence of them) equals the state
before, and consequently repeated `CheckNonce` calls with no intervening
`CheckAndSetNonce` always return the same `(Reason, Bool)` pair. -/
theorem checkNonce_never_mutates (w : SlidingWindow) (ms : List Nat) (n : Nat) :
    runCheckNonce w ms = w ∧ (runCheckNonce w ms).CheckNonce n = w.CheckNonce n := by
  refine ⟨runCheckNonce_id w ms, ?_⟩
  rw [runCheckNonce_id w ms]

/-- Claim C6: for every window state and nonce, `CheckNonce` returns exactly
the `(Reason, Bool)` pair that `CheckAndSetNonce` returns on the same state;
the peek differs only in omitting the state transition. -/
theorem checkNonce_refines_checkAndSetNonce (w : SlidingWindow) (n : Nat) :
    (w.CheckNonce n).1 = (w.CheckAndSetNonce n).1 ∧
    (w.CheckNonce n).2.1 = (w.CheckAndSetNonce n).2.1 := by
  simp only [SlidingWindow.CheckNonce, SlidingWindow.CheckAndSetNonce]
  split_ifs <;> exact ⟨rfl, rfl⟩

/-- Claim C7: the `(Reason, Bool)` pair returned by `CheckAndSetNonce`, and
likewise by `CheckNonce`, is always one of exactly `(First, true)`,
`(Reuse, false)`, `(Shift, true)`, `(OutOfWindow, false)`. -/
theorem reason_bool_correspondence (w : SlidingWindow) (n : Nat) :
    (((w.CheckAndSetNonce n).1 = Reason.First ∧ (w.CheckAndSetNonce n).2.1 = true)
      ∨ ((w.CheckAndSetNonce n).1 = Reason.Reuse ∧ (w.CheckAndSetNonce n).2.1 = false)
      ∨ ((w.CheckAndSetNonce n).1 = Reason.Shift ∧ (w.CheckAndSetNonce n).2.1 = true)
      ∨ ((w.CheckAndSetNonce n).1 = Reason.OutOfWindow ∧ (w.CheckAndSetNonce n).2.1 = false))
    ∧ (((w.CheckNonce n).1 = Reason.First ∧ (w.CheckNonce n).2.1 = true)
      ∨ ((w.CheckNonce n).1 = Reason.Reuse ∧ (w.CheckNonce n).2.1 = false)
      ∨ ((w.CheckNonce n).1 = Reason.Shift ∧ (w.CheckNonce n).2.1 = true)
      ∨ ((w.CheckNonce n).1 = Reason.OutOfWindow ∧ (w.CheckNonce n).2.1 = false)) := by
  constructor
  · simp only [SlidingWindow.CheckAndSetNonce]
    split_ifs <;> simp
  · simp only [SlidingWindow.CheckNonce]
    split_ifs <;> simp

/-- Claim C8: `setBit` then `isBitSet` at the same position is true, and
`setBit` at `p` does not change `isBitSet` at any `q ≠ p`. -/
theorem setBit_isBitSet_correct (x : Int256) (p q : Nat) (hp : p < 256) (hq : q < 256) :
    isBitSet (setBit x p) p = true
    ∧ (q ≠ p → isBitSet (setBit x p) q = isBitSet x q) := by
  constructor
  · rw [isBitSet_setBit x hp hp]
    simp
  · intro hne
    rw [isBitSet_setBit x hp hq, decide_eq_false hne, Bool.false_or]

/-- Witness for C8 at `x = 0`, `p = 7`, `q = 5`. -/
theorem setBit_isBitSet_correct_witness :
    isBitSet (setBit ⟨0, 0, 0, 0⟩ 7) 7 = true
    ∧ (5 ≠ 7 → isBitSet (setBit ⟨0, 0, 0, 0⟩ 7) 5 = isBitSet ⟨0, 0, 0, 0⟩ 5) :=
  setBit_isBitSet_correct ⟨0, 0, 0, 0⟩ 7 5 (by norm_num) (by norm_num)

/-- Claim C9: whenever `CheckAndSetNonce` answers `OutOfWindow` or `Reuse`
(the rejecting branches), the window state is unchanged by the call. -/
theorem reject_no_mutation (w : SlidingWindow) (n : Nat)
    (h : (w.CheckAndSetNonce n).1 = Reason.OutOfWindow
      ∨ (w.CheckAndSetNonce n).1 = Reason.Reuse) :
    (w.CheckAndSetNonce n).2.2 = w := by
  simp only [SlidingWindow.CheckAndSetNonce] at h ⊢
  split_ifs at h ⊢
  · rfl
  · exfalso
    rcases h with h | h <;> simp at h
  · rfl
  · exfalso
    rcases h with h | h <;> simp at h

/-- Witness for C9: a window with offset 1 rejects nonce 0 without mutation. -/
theorem reject_no_mutation_witness :
    (SlidingWindow.CheckAndSetNonce ⟨1, ⟨0, 0, 0, 0⟩⟩ 0).2.2 = ⟨1, ⟨0, 0, 0, 0⟩⟩ :=
  reject_no_mutation ⟨1, ⟨0, 0, 0, 0⟩⟩ 0 (by decide)

/-- Claim C4: in the above-window case (`n ≥ offset + 256`), `CheckAndSetNonce`
returns `(Shift, true)`, sets `offset` to `n - 256 + 1`, and sets the bit at
position `n - newOffset`, which equals 255; in particular on a fresh window
`CheckAndSetNonce 300` returns `(Shift, true)` and afterwards `offset = 45`. -/
theorem checkAndSetNonce_shift_correct (w : SlidingWindow) (n : Nat) (hn : n < 2^64)
    (h : w.offset + 256 ≤ n) :
    w.CheckAndSetNonce n =
      (Reason.Shift, true,
        ⟨n - 256 + 1, setBit (shiftLeft w.bitmap (n - 256 + 1 - w.offset)) 255⟩)
    ∧ n - (n - 256 + 1) = 255
    ∧ (freshWindow.CheckAndSetNonce 300).1 = Reason.Shift
    ∧ (freshWindow.CheckAndSetNonce 300).2.1 = true
    ∧ (freshWindow.CheckAndSetNonce 300).2.2.offset = 45 := by
  have hw : w.offset + 256 < 2^64 := by omega
  refine ⟨?_, by omega, by decide, by decide, by decide⟩
  rw [checkAndSet_spec w n hw hn, if_neg (show ¬(n < w.offset) from by omega), if_pos h,
    show n - 256 + 1 = n - 255 from by omega]

/-- Witness for C4 at the fresh window and nonce 300. -/
theorem checkAndSetNonce_shift_correct_witness :
    freshWindow.CheckAndSetNonce 300 =
      (Reason.Shift, true,
        ⟨300 - 256 + 1, setBit (shiftLeft freshWindow.bitmap (300 - 256 + 1 - freshWindow.offset)) 255⟩)
    ∧ 300 - (300 - 256 + 1) = 255
    ∧ (freshWindow.CheckAndSetNonce 300).1 = Reason.Shift
    ∧ (freshWindow.CheckAndSetNonce 300).2.1 = true
    ∧ (freshWindow.CheckAndSetNonce 300).2.2.offset = 45 :=
  checkAndSetNonce_shift_correct freshWindow 300 (by norm_num) (by decide)

/-- Claim C10: when `offset < 2^64 - 256` (so `offset + 256` cannot overflow)
and `n < 2^64`, a `CheckAndSetNonce` call classifies `n` into the correct
region of `[offset, offset + 256)` with plain integer arithmetic: it answers
`OutOfWindow` iff `n < offset`, takes the shift branch iff `n ≥ offset + 256`,
bit-tests position `n - offset` otherwise, and never decreases `offset`. -/
theorem checkAndSetNonce_classification (w : SlidingWindow) (n : Nat)
    (hoff : w.offset < 2^64 - 256) (hn : n < 2^64) :
    ((w.CheckAndSetNonce n).1 = Reason.OutOfWindow ↔ n < w.offset)
    ∧ ((w.CheckAndSetNonce n).1 = Reason.Shift ↔ w.offset + 256 ≤ n)
    ∧ (w.offset ≤ n → n < w.offset + 256 →
        w.CheckAndSetNonce n =
          if isBitSet w.bitmap (n - w.offset) then (Reason.Reuse, false, w)
          else (Reason.First, true, ⟨w.offset, setBit w.bitmap (n - w.offset)⟩))
    ∧ w.offset ≤ (w.CheckAndSetNonce n).2.2.offset := by
  have hw : w.offset + 256 < 2^64 := by omega
  rw [checkAndSet_spec w n hw hn]
  by_cases g1 : n < w.offset
  · rw [if_pos g1]
    refine ⟨by simp [g1], by simp; omega, ?_, by simp⟩
    intro h1 h2
    exact absurd g1 (by omega)
  · rw [if_neg g1]
    by_cases g2 : w.offset + 256 ≤ n
    · rw [if_pos g2]
      refine ⟨by simp; omega, by simp [g2], ?_, by simp; omega⟩
      intro h1 h2
      exact absurd g2 (by omega)
    · rw [if_neg g2]
      by_cases g3 : isBitSet w.bitmap (n - w.offset) = true
      · rw [if_pos g3]
        exact ⟨by simp; omega, by simp; omega, fun h1 h2 => rfl, by simp⟩
      · rw [if_neg g3]
        exact ⟨by simp; omega, by simp; omega, fun h1 h2 => rfl, by simp⟩

/-- Witness for C10 at the fresh window and nonce 5. -/
theorem checkAndSetNonce_classification_witness :
    ((freshWindow.CheckAndSetNonce 5).1 = Reason.OutOfWindow ↔ 5 < freshWindow.offset)
    ∧ ((freshWindow.CheckAndSetNonce 5).1 = Reason.Shift ↔ freshWindow.offset + 256 ≤ 5)
    ∧ (freshWindow.offset ≤ 5 → 5 < freshWindow.offset + 256 →
        freshWindow.CheckAndSetNonce 5 =
          if isBitSet freshWindow.bitmap (5 - freshWindow.offset)
          then (Reason.Reuse, false, freshWindow)
          else (Reason.First, true,
            ⟨freshWindow.offset, setBit freshWindow.bitmap (5 - freshWindow.offset)⟩))
    ∧ freshWindow.offset ≤ (freshWindow.CheckAndSetNonce 5).2.2.offset :=
  checkAndSetNonce_classification freshWindow 5 (by norm_num [freshWindow]) (by norm_num)

/-- Claim C3: `shiftLeft x a` is exactly `(x * 2^a) mod 2^256` — zeros shifted
in from the least significant side, bits shifted past the most significant
edge discarded; in particular any `a ≥ 256` yields the all-zero value (and the
equation covers exact multiples of the word width such as `a = 64`). -/
theorem shiftLeft_correct (x : Int256) (hx : x.Wf) (a : Nat) :
    (shiftLeft x a).toNat = x.toNat * 2^a % 2^256
    ∧ (256 ≤ a → shiftLeft x a = ⟨0, 0, 0, 0⟩) := by
  exact ⟨shiftLeft_toNat hx a, fun ha => shiftLeft_zero_of_ge a ha⟩

/-- Witness for C3 at `x = ⟨1, 2, 3, 4⟩` with a word-multiple amount 64 and an
oversized amount 300. -/
theorem shiftLeft_correct_witness :
    (shiftLeft ⟨1, 2, 3, 4⟩ 64).toNat = Int256.toNat ⟨1, 2, 3, 4⟩ * 2^64 % 2^256
    ∧ shiftLeft ⟨1, 2, 3, 4⟩ 300 = ⟨0, 0, 0, 0⟩ :=
  ⟨(shiftLeft_correct ⟨1, 2, 3, 4⟩ (by decide) 64).1,
   (shiftLeft_correct ⟨1, 2, 3, 4⟩ (by decide) 300).2 (by norm_num)⟩

/-- Counterexample to claim C1 as stated: starting from the fresh window, the
call sequence `[2^64 - 1, 2^64 - 256]` makes `offset` decrease on the second
call (from `2^64 - 256` down to `2^64 - 511`), because `offset + windowSize`
overflows `uint64` once `offset = 2^64 - 256`. -/
theorem checkAndSetNonce_offset_decrease_cex :
    ((runWindow freshWindow [2^64 - 1]).CheckAndSetNonce (2^64 - 256)).2.2.offset
      < (runWindow freshWindow [2^64 - 1]).offset := by decide

/-- Claim C1 (amended): starting from the fresh window, as long as every nonce
in the sequence is at most `2^64 - 2`, the offset never decreases: after each
call the new offset is at least the offset before that call. -/
theorem checkAndSetNonce_offset_monotone (ns : List Nat) (n : Nat)
    (hns : ∀ m ∈ ns, m ≤ 2^64 - 2) (hn : n ≤ 2^64 - 2) :
    (runWindow freshWindow ns).offset
      ≤ ((runWindow freshWindow ns).CheckAndSetNonce n).2.2.offset :=
  step_offset_mono (runWindow_inv inv_fresh hns) (by omega)

/-- Witness for the amended C1 at the sequence `[3]` followed by nonce 7. -/
theorem checkAndSetNonce_offset_monotone_witness :
    (runWindow freshWindow [3]).offset
      ≤ ((runWindow freshWindow [3]).CheckAndSetNonce 7).2.2.offset :=
  checkAndSetNonce_offset_monotone [3] 7
    (by intro m hm; simp at hm; omega) (by norm_num)

/-- Counterexample to claim C2 as stated: from the fresh window, nonce
`2^64 - 1` is accepted by the first call and accepted again after the
sequence `[2^64 - 1, 2^64 - 256]`, even though the offset never advanced past
`2^64 - 1` at any point (it stays at 0, `2^64 - 256`, `2^64 - 511`). -/
theorem checkAndSetNonce_double_accept_cex :
    (freshWindow.CheckAndSetNonce (2^64 - 1)).2.1 = true
    ∧ ((runWindow freshWindow [2^64 - 1, 2^64 - 256]).CheckAndSetNonce (2^64 - 1)).2.1 = true
    ∧ freshWindow.offset ≤ 2^64 - 1
    ∧ (runWindow freshWindow [2^64 - 1]).offset ≤ 2^64 - 1
    ∧ (runWindow freshWindow [2^64 - 1, 2^64 - 256]).offset ≤ 2^64 - 1 := by decide

/-- Claim C2 (amended): with every nonce bounded by `2^64 - 2`, once a call
with argument `n` returns `accepted = true`, every later call with argument
`n` (after any further bounded calls) returns `accepted = false`; and once the
offset has advanced past `n`, every later call with argument `n` returns
`(OutOfWindow, false)` and leaves the state unchanged. -/
theorem checkAndSetNonce_no_double_accept (pre mid : List Nat) (n : Nat)
    (hpre : ∀ m ∈ pre, m ≤ 2^64 - 2) (hmid : ∀ m ∈ mid, m ≤ 2^64 - 2)
    (hn : n ≤ 2^64 - 2) :
    (((runWindow freshWindow pre).CheckAndSetNonce n).2.1 = true →
      ((runWindow ((runWindow freshWindow pre).CheckAndSetNonce n).2.2 mid).CheckAndSetNonce n).2.1
        = false)
    ∧ (n < (runWindow freshWindow pre).offset →
      (runWindow (runWindow freshWindow pre) mid).CheckAndSetNonce n
        = (Reason.OutOfWindow, false, runWindow (runWindow freshWindow pre) mid)) := by
  have hinv : GoodState (runWindow freshWindow pre) := runWindow_inv inv_fresh hpre
  have hn' : n < 2^64 := by omega
  constructor
  · intro hacc
    have h1 : GoodState ((runWindow freshWindow pre).CheckAndSetNonce n).2.2 :=
      step_inv hinv hn
    have h2 : Seen ((runWindow freshWindow pre).CheckAndSetNonce n).2.2 n :=
      step_accept_seen hinv hn' hacc
    have h3 := runWindow_seen h1 hmid h2
    exact seen_reject (runWindow_inv h1 hmid) hn' h3
  · intro hlt
    have h4 := runWindow_offset_mono hinv hmid
    exact below_reject (by omega)

/-- Witness for the amended C2: nonce 5 accepted on the fresh window is
rejected when resubmitted after a further call with nonce 7. -/
theorem checkAndSetNonce_no_double_accept_witness :
    (((runWindow freshWindow []).CheckAndSetNonce 5).2.1 = true →
      ((runWindow ((runWindow freshWindow []).CheckAndSetNonce 5).2.2 [7]).CheckAndSetNonce 5).2.1
        = false)
    ∧ (5 < (runWindow freshWindow []).offset →
      (runWindow (runWindow freshWindow []) [7]).CheckAndSetNonce 5
        = (Reason.OutOfWindow, false, runWindow (runWindow freshWindow []) [7])) :=
  checkAndSetNonce_no_double_accept [] [7] 5 (by simp)
    (by intro m hm; simp at hm; omega) (by norm_num)
